import Mathlib

/-!
Verification of the takumi rendering engine against its natural-language
specification.  The Rust sources are shallowly embedded over the rational
numbers: every arithmetic expression of the code is copied verbatim with `ℚ`
standing in for `f32` (exact arithmetic, no rounding), and the transcendental
helpers (`sin_cos`, `tan`) are represented by the pair of values they return,
since exact sines and cosines are not expressible in the rational model.
Fallible operations return `Option`, stateful traversals pass their state
explicitly.
-/

namespace Takumi

/-- A 2D point, mirroring `taffy::Point<f32>`. -/
structure Point where
  x : ℚ
  y : ℚ
deriving DecidableEq, Repr

instance : Add Point := ⟨fun p q => ⟨p.x + q.x, p.y + q.y⟩⟩

theorem Point.add_def (p q : Point) : p + q = ⟨p.x + q.x, p.y + q.y⟩ := rfl

/-- 2D affine transform, embedding `Affine` from
`src/takumi/src/layout/style/properties/transform.rs`:
row-major `[a b c d x y]` for the matrix `| a b x / c d y / 0 0 1 |`. -/
structure Affine where
  a : ℚ
  b : ℚ
  c : ℚ
  d : ℚ
  x : ℚ
  y : ℚ
deriving DecidableEq, Repr

namespace Affine

/-- Embeds `Mul<Affine> for Affine` (transform.rs lines 52-65). -/
def mul (s rhs : Affine) : Affine where
  a := s.a * rhs.a + s.b * rhs.c
  b := s.a * rhs.b + s.b * rhs.d
  c := s.c * rhs.a + s.d * rhs.c
  d := s.c * rhs.b + s.d * rhs.d
  x := s.x * rhs.a + s.y * rhs.c + rhs.x
  y := s.x * rhs.b + s.y * rhs.d + rhs.y

instance : Mul Affine := ⟨mul⟩

theorem mul_def (s rhs : Affine) : s * rhs = s.mul rhs := rfl

/-- Embeds `Affine::IDENTITY`. -/
def identity : Affine := ⟨1, 0, 0, 1, 0, 0⟩

/-- Embeds `Affine::decompose_translation`. -/
def decomposeTranslation (s : Affine) : Point := ⟨s.x, s.y⟩

/-- Embeds `Affine::rotation`.  The source computes
`let (sin, cos) = angle.to_radians().sin_cos()`; the angle is embedded by that
`(sin, cos)` pair, written `cs`. -/
def rotation (sin cos : ℚ) : Affine := ⟨cos, sin, -sin, cos, 0, 0⟩

/-- Embeds `Affine::translation`. -/
def translation (x y : ℚ) : Affine := ⟨1, 0, 0, 1, x, y⟩

/-- Embeds `Affine::scale`. -/
def scale (x y : ℚ) : Affine := ⟨x, 0, 0, y, 0, 0⟩

/-- Embeds `Affine::transform_point`. -/
def transformPoint (s : Affine) (p : Point) : Point :=
  ⟨s.a * p.x + s.c * p.y + s.x, s.b * p.x + s.d * p.y + s.y⟩

/-- Embeds `Affine::skew`.  The source computes `tan` of each angle; each
angle is embedded by its tangent. -/
def skew (tanx tany : ℚ) : Affine := ⟨1, tany, tanx, 1, 0, 0⟩

/-- Embeds `Affine::determinant`. -/
def determinant (s : Affine) : ℚ := s.a * s.d - s.b * s.c

/-- The constant `f32::EPSILON`, exactly `2⁻²³`. -/
def epsF32 : ℚ := 1 / 8388608

/-- Embeds `Affine::is_invertible`. -/
def isInvertible (s : Affine) : Bool := |s.determinant| > epsF32

/-- Embeds `Affine::invert` (transform.rs lines 176-191). -/
def invert (s : Affine) : Option Affine :=
  let det := s.determinant
  if |det| < epsF32 then
    none
  else
    some
      ⟨s.d / det, s.b / -det, s.c / -det, s.a / det,
        (s.d * s.x - s.c * s.y) / -det, (s.b * s.x - s.a * s.y) / det⟩

end Affine

/-- Componentwise closeness of two affines, the "within tolerance" relation of
the specification's algebraic properties. -/
def affineApproxEq (s t : Affine) (tol : ℚ) : Prop :=
  |s.a - t.a| ≤ tol ∧ |s.b - t.b| ≤ tol ∧ |s.c - t.c| ≤ tol ∧
    |s.d - t.d| ≤ tol ∧ |s.x - t.x| ≤ tol ∧ |s.y - t.y| ≤ tol

instance (s t : Affine) (tol : ℚ) : Decidable (affineApproxEq s t tol) := by
  unfold affineApproxEq; infer_instance

/-- C9: For all affines `A` and `B` and every point `p`,
`(A * B).transform_point(p)` equals `B.transform_point(A.transform_point(p))`
over exact arithmetic: the multiplication composes so that the left operand
is applied to points first, the right operand second. -/
theorem c9_mul_applies_left_operand_first (A B : Affine) (p : Point) :
    (A * B).transformPoint p = B.transformPoint (A.transformPoint p) := by
  simp only [Affine.mul_def, Affine.mul, Affine.transformPoint]
  refine congrArg₂ Point.mk ?_ ?_ <;> ring

/-- C5: For every `Affine A` whose determinant has absolute value greater
than `f32::EPSILON`, `A.invert()` succeeds and `A * A.invert()` equals the
identity affine within a per-component tolerance of `1e-4` (in the exact
rational model the product is the identity on the nose). -/
theorem c5_invert_right_inverse (A : Affine) (h : |A.determinant| > Affine.epsF32) :
    ∃ B, A.invert = some B ∧ affineApproxEq (A * B) Affine.identity (1 / 10000) := by
  have hdet : A.determinant ≠ 0 := by
    intro h0
    rw [h0] at h
    norm_num [Affine.epsF32] at h
  refine ⟨⟨A.d / A.determinant, A.b / -A.determinant, A.c / -A.determinant,
      A.a / A.determinant, (A.d * A.x - A.c * A.y) / -A.determinant,
      (A.b * A.x - A.a * A.y) / A.determinant⟩, ?_, ?_⟩
  · unfold Affine.invert
    rw [if_neg (by simpa using not_lt.mpr (le_of_lt h))]
  · have hid : A * ⟨A.d / A.determinant, A.b / -A.determinant, A.c / -A.determinant,
        A.a / A.determinant, (A.d * A.x - A.c * A.y) / -A.determinant,
        (A.b * A.x - A.a * A.y) / A.determinant⟩ = Affine.identity := by
      obtain ⟨a, b, c, d, x, y⟩ := A
      simp only [Affine.determinant] at hdet
      have hu : (a * d - b * c) * (a * d - b * c)⁻¹ = 1 := mul_inv_cancel₀ hdet
      simp only [Affine.mul_def, Affine.mul, Affine.identity, Affine.determinant]
      congr 1 <;> simp only [div_eq_mul_inv, inv_neg] <;>
        first
          | ring1
          | linear_combination hu
    rw [hid]
    unfold affineApproxEq
    norm_num

/-- Witness for C5 at a concrete affine. -/
theorem c5_invert_right_inverse_witness :
    ∃ B, (Affine.mk 2 0 0 1 5 7).invert = some B ∧
      affineApproxEq (Affine.mk 2 0 0 1 5 7 * B) Affine.identity (1 / 10000) :=
  c5_invert_right_inverse ⟨2, 0, 0, 1, 5, 7⟩ (by norm_num [Affine.determinant, Affine.epsF32])

/-- A 2D size, mirroring `taffy::Size<f32>`. -/
structure Size where
  width : ℚ
  height : ℚ
deriving DecidableEq, Repr

/-- Modelled from the spec: `LengthUnit` (its defining file is not in the
source snapshot).  Spec §3 lists the variants `Auto`, `Px`, `Percentage`,
`Em`, `Rem`, `Vw`, `Vh` (plus `Min`/`Max`, never produced on the paint paths
embedded here and therefore omitted). -/
inductive LengthUnit where
  | auto
  | px (v : ℚ)
  | percentage (v : ℚ)
  | em (v : ℚ)
  | rem (v : ℚ)
  | vw (v : ℚ)
  | vh (v : ℚ)
deriving DecidableEq, Repr

/-- The slice of the render context consumed by length resolution: current
font size and the viewport dimensions and base font size. -/
structure RenderCtx where
  viewportWidth : ℚ
  viewportHeight : ℚ
  viewportFontSize : ℚ
  fontSize : ℚ
deriving DecidableEq, Repr

/-- Modelled from the spec: `resolve_to_px` per the closed-form formulas of
spec §8 — `Px(x) → x`, `Percentage(p) → p/100 * base`, `Em(x) → x*font_size`,
`Rem(x) → x*viewport.font_size`, `Vw(x) → x/100 * viewport.width`,
`Vh(x) → x/100 * viewport.height`; `Auto` contributes `0` on the paint path. -/
def LengthUnit.resolveToPx (l : LengthUnit) (ctx : RenderCtx) (base : ℚ) : ℚ :=
  match l with
  | .auto => 0
  | .px v => v
  | .percentage p => p / 100 * base
  | .em v => v * ctx.fontSize
  | .rem v => v * ctx.viewportFontSize
  | .vw v => v / 100 * ctx.viewportWidth
  | .vh v => v / 100 * ctx.viewportHeight

/-- Embeds `Transform` from transform.rs.  As for `Affine.rotation`, the
rotation angle is embedded by its `(sin, cos)` pair and the skew angles by
their tangents, the values the source extracts from them. -/
inductive Transform where
  | translate (x y : LengthUnit)
  | scale (x y : ℚ)
  | rotate (sin cos : ℚ)
  | skew (tanx tany : ℚ)
  | matrix (m : Affine)
deriving DecidableEq, Repr

/-- Embeds `Transforms`, the declared `transform` list. -/
structure Transforms where
  ops : List Transform
deriving DecidableEq, Repr

/-- Embeds `Transforms::to_affine` (transform.rs lines 254-281): starting from
the identity, each declared operation is multiplied on the right
(`instance *= …`) in declaration order. -/
def Transforms.toAffine (t : Transforms) (ctx : RenderCtx) (borderBox : Size) : Affine :=
  t.ops.foldl
    (fun acc op =>
      match op with
      | .translate lx ly =>
          acc * Affine.translation (lx.resolveToPx ctx borderBox.width)
            (ly.resolveToPx ctx borderBox.height)
      | .scale sx sy => acc * Affine.scale sx sy
      | .rotate s c => acc * Affine.rotation s c
      | .skew tx ty => acc * Affine.skew tx ty
      | .matrix m => acc * m)
    Affine.identity

/-- Modelled from the spec: the `transform-origin` point specification (its
defining file is not in the source snapshot; spec §4.5 has the paint pass
translate to the transform-origin point).  The CSS initial value is the
center, `50% 50%`. -/
structure TransformOrigin where
  x : LengthUnit
  y : LengthUnit
deriving DecidableEq, Repr

instance : Inhabited TransformOrigin :=
  ⟨⟨.percentage 50, .percentage 50⟩⟩

/-- Modelled from the spec: `TransformOrigin::to_point` resolves each axis
against the corresponding border-box axis length. -/
def TransformOrigin.toPoint (o : TransformOrigin) (ctx : RenderCtx) (borderBox : Size) : Point :=
  ⟨o.x.resolveToPx ctx borderBox.width, o.y.resolveToPx ctx borderBox.height⟩

/-- Modelled from the spec: the `display` property (its defining file is not
in the source snapshot).  The spec names `inline`, `block`, `flex`, `grid`
and `none`; `is_inline` holds of the inline variant and `to_block` maps it to
its block counterpart, as used by the layout-tree assembly. -/
inductive Display where
  | block
  | inline
  | flex
  | grid
  | none
deriving DecidableEq, Repr

/-- Modelled from the spec: see `Display`. -/
def Display.isInline : Display → Bool
  | .inline => true
  | _ => false

/-- Modelled from the spec: see `Display`. -/
def Display.toBlock : Display → Display
  | .inline => .block
  | d => d

/-- Embeds `Overflow` from overflow.rs. -/
inductive Overflow where
  | visible
  | hidden
deriving DecidableEq, Repr

/-- Embeds `SpacePair<T>`: a per-axis pair. -/
structure SpacePair (α : Type) where
  x : α
  y : α
deriving DecidableEq, Repr

/-- Embeds `SpacePair::from_single`. -/
def SpacePair.fromSingle {α : Type} (v : α) : SpacePair α := ⟨v, v⟩

/-- Embeds `Overflows`, the overflow pair newtype. -/
structure Overflows where
  toPair : SpacePair Overflow
deriving DecidableEq, Repr

/-- The deref-projection `overflows.x` of the source. -/
def Overflows.x (o : Overflows) : Overflow := o.toPair.x

/-- The deref-projection `overflows.y` of the source. -/
def Overflows.y (o : Overflows) : Overflow := o.toPair.y

/-- Embeds `Overflows::should_clip_content`. -/
def Overflows.shouldClipContent (o : Overflows) : Bool :=
  decide (o ≠ ⟨SpacePair.fromSingle Overflow.visible⟩)

/-- The slice of `InheritedStyle` that `render_node`, `create_transform` and
`create_constrain` consult.  `clipPath` records whether a `clip-path` is
declared; the rotation and scale declarations are embedded as resolved pairs
(`(sin, cos)` and the two scale factors). -/
structure PaintStyle where
  display : Display
  transformOrigin : Option TransformOrigin
  transform : Option Transforms
  rotate : Option (ℚ × ℚ)
  scale : Option (ℚ × ℚ)
  translate : Option (LengthUnit × LengthUnit)
  clipPath : Bool
  overflow : Overflows
deriving DecidableEq, Repr

/-- Embeds `create_transform` (render.rs lines 96-131): translate to the
transform-origin point (offset by the transform's accumulated translation),
multiply the declared `transform` list, `rotate`, `scale` and `translate`
properties on the right in that textual order, then translate back. -/
def createTransform (transform : Affine) (style : PaintStyle) (borderBox : Size)
    (ctx : RenderCtx) : Affine :=
  let transformOrigin := style.transformOrigin.getD default
  let center := transformOrigin.toPoint ctx borderBox + transform.decomposeTranslation
  let t1 := transform * Affine.translation (-center.x) (-center.y)
  let t2 :=
    match style.transform with
    | some l => t1 * l.toAffine ctx borderBox
    | none => t1
  let t3 :=
    match style.rotate with
    | some r => t2 * Affine.rotation r.1 r.2
    | none => t2
  let t4 :=
    match style.scale with
    | some s => t3 * Affine.scale s.1 s.2
    | none => t3
  let t5 :=
    match style.translate with
    | some tr =>
        t4 * Affine.translation (tr.1.resolveToPx ctx borderBox.width)
          (tr.2.resolveToPx ctx borderBox.height)
    | none => t4
  t5 * Affine.translation center.x center.y

/-- The transform composition in the order asserted by the claim: the declared
transforms applied translate first, then rotate, then scale, then the matrix
transform list, all around the transform-origin.  Under the product
convention of `Affine.mul` (see `c9_mul_applies_left_operand_first`, the left
factor acts on points first), a factor sequence is its application order. -/
def createTransformClaimOrder (transform : Affine) (style : PaintStyle) (borderBox : Size)
    (ctx : RenderCtx) : Affine :=
  let transformOrigin := style.transformOrigin.getD default
  let center := transformOrigin.toPoint ctx borderBox + transform.decomposeTranslation
  let t1 := transform * Affine.translation (-center.x) (-center.y)
  let t2 :=
    match style.translate with
    | some tr =>
        t1 * Affine.translation (tr.1.resolveToPx ctx borderBox.width)
          (tr.2.resolveToPx ctx borderBox.height)
    | none => t1
  let t3 :=
    match style.rotate with
    | some r => t2 * Affine.rotation r.1 r.2
    | none => t2
  let t4 :=
    match style.scale with
    | some s => t3 * Affine.scale s.1 s.2
    | none => t3
  let t5 :=
    match style.transform with
    | some l => t4 * l.toAffine ctx borderBox
    | none => t4
  t5 * Affine.translation center.x center.y

/-- A node style declaring `translate: 10px 0px` and `scale: 2 1`
(and nothing else), used to separate the two composition orders. -/
def c1Style : PaintStyle where
  display := .block
  transformOrigin := some ⟨.px 0, .px 0⟩
  transform := Option.none
  rotate := Option.none
  scale := some (2, 1)
  translate := some (.px 10, .px 0)
  clipPath := false
  overflow := ⟨SpacePair.fromSingle .visible⟩

/-- A concrete render context for counterexamples. -/
def ctx0 : RenderCtx := ⟨800, 600, 16, 16⟩

/-- C1 counterexample: with `translate: 10px 0` and `scale: 2 1` declared, the
transform `create_transform` composes differs from the one composed in the
claim's order (translate first, then rotate, then scale, then the matrix
list): the code yields translation component `x = 10`, the claimed order
yields `x = 20`. -/
theorem c1_counterexample :
    createTransform Affine.identity c1Style ⟨100, 100⟩ ctx0 ≠
      createTransformClaimOrder Affine.identity c1Style ⟨100, 100⟩ ctx0 := by
  have h1 : (createTransform Affine.identity c1Style ⟨100, 100⟩ ctx0).x = 10 := by
    norm_num [createTransform, c1Style, ctx0, TransformOrigin.toPoint,
      LengthUnit.resolveToPx, Affine.identity, Affine.translation, Affine.scale,
      Affine.decomposeTranslation, Option.getD, Affine.mul_def, Affine.mul,
      Point.add_def]
  have h2 : (createTransformClaimOrder Affine.identity c1Style ⟨100, 100⟩ ctx0).x = 20 := by
    norm_num [createTransformClaimOrder, c1Style, ctx0, TransformOrigin.toPoint,
      LengthUnit.resolveToPx, Affine.identity, Affine.translation, Affine.scale,
      Affine.decomposeTranslation, Option.getD, Affine.mul_def, Affine.mul,
      Point.add_def]
  intro h
  rw [h, h2] at h1
  norm_num at h1

/-- C1 (amended): in the paint traversal, for every node with declared
transform properties, after translating by the layout origin and to the
transform-origin point, the node's declared transforms are applied in the
order matrix transform list first, then rotate, then scale, then translate
(all around the transform-origin), before translating back from the
transform-origin. -/
theorem c1_transform_composition_order (t : Affine) (style : PaintStyle) (borderBox : Size)
    (ctx : RenderCtx) (l : Transforms) (r s : ℚ × ℚ) (tr : LengthUnit × LengthUnit)
    (hl : style.transform = some l) (hr : style.rotate = some r)
    (hs : style.scale = some s) (ht : style.translate = some tr) :
    createTransform t style borderBox ctx =
      let center := (style.transformOrigin.getD default).toPoint ctx borderBox +
        t.decomposeTranslation
      t * Affine.translation (-center.x) (-center.y) * l.toAffine ctx borderBox *
        Affine.rotation r.1 r.2 * Affine.scale s.1 s.2 *
        Affine.translation (tr.1.resolveToPx ctx borderBox.width)
          (tr.2.resolveToPx ctx borderBox.height) *
        Affine.translation center.x center.y := by
  unfold createTransform
  rw [hl, hr, hs, ht]

/-- Witness for C1 at a concrete style with all four declarations present. -/
theorem c1_transform_composition_order_witness :
    createTransform Affine.identity
        ⟨.block, some ⟨.px 0, .px 0⟩, some ⟨[.scale 3 4]⟩, some (1, 0), some (2, 1),
          some (.px 10, .px 0), false, ⟨SpacePair.fromSingle .visible⟩⟩
        ⟨100, 100⟩ ctx0 =
      let center := ((some ⟨LengthUnit.px 0, LengthUnit.px 0⟩).getD
        (default : TransformOrigin)).toPoint ctx0 ⟨100, 100⟩ +
        Affine.identity.decomposeTranslation
      Affine.identity * Affine.translation (-center.x) (-center.y) *
        Transforms.toAffine ⟨[.scale 3 4]⟩ ctx0 ⟨100, 100⟩ *
        Affine.rotation 1 0 * Affine.scale 2 1 *
        Affine.translation ((LengthUnit.px 10).resolveToPx ctx0 100)
          ((LengthUnit.px 0).resolveToPx ctx0 100) *
        Affine.translation center.x center.y :=
  c1_transform_composition_order Affine.identity
    ⟨.block, some ⟨.px 0, .px 0⟩, some ⟨[.scale 3 4]⟩, some (1, 0), some (2, 1),
      some (.px 10, .px 0), false, ⟨SpacePair.fromSingle .visible⟩⟩
    ⟨100, 100⟩ ctx0 ⟨[.scale 3 4]⟩ (1, 0) (2, 1) (.px 10, .px 0) rfl rfl rfl rfl

/-- Per-side rectangle values, mirroring `taffy::Rect<f32>`. -/
structure RectSides where
  left : ℚ
  right : ℚ
  top : ℚ
  bottom : ℚ
deriving DecidableEq, Repr

/-- The per-node result of the external box-layout solver, mirroring
`taffy::Layout`: border-box origin and size plus resolved padding and
border. -/
structure LayoutRect where
  location : Point
  size : Size
  padding : RectSides
  border : RectSides
deriving DecidableEq, Repr

/-- Embeds `taffy::Layout::content_box_width`: the border-box width minus the
horizontal padding and border (the solver is an external collaborator; this is
its documented formula). -/
def LayoutRect.contentBoxWidth (l : LayoutRect) : ℚ :=
  l.size.width - l.padding.left - l.padding.right - l.border.left - l.border.right

/-- Embeds `taffy::Layout::content_box_height`, analogously. -/
def LayoutRect.contentBoxHeight (l : LayoutRect) : ℚ :=
  l.size.height - l.padding.top - l.padding.bottom - l.border.top - l.border.bottom

/-- The constant `f32::MAX`, exactly `(2²⁴ - 1) · 2¹⁰⁴`. -/
def f32Max : ℚ := (2 ^ 24 - 1) * 2 ^ 104

/-- The constant `f32::MIN`, exactly `-f32::MAX`. -/
def f32Min : ℚ := -f32Max

/-- Embeds `CanvasConstrain` (spec §4.5: `Constraint { from, to,
inverse_transform, optional_mask }`; the defining canvas file is not in the
source snapshot).  The mask payload is irrelevant to the theorems below and
embedded as a flag. -/
structure CanvasConstrain where
  fromPoint : Point
  toPoint : Point
  inverseTransform : Affine
  mask : Bool
deriving DecidableEq, Repr

/-- Embeds `Overflows::create_constrain` (overflow.rs lines 97-143): `None`
when nothing is clipped, when a clipped axis has a content box thinner than
`f32::EPSILON`, or when the transform is not invertible; otherwise the
content-box rectangle (unbounded on unclipped axes) with the inverted
transform. -/
def Overflows.createConstrain (o : Overflows) (layout : LayoutRect) (transform : Affine) :
    Option CanvasConstrain :=
  let clipX := decide (o.x ≠ Overflow.visible)
  let clipY := decide (o.y ≠ Overflow.visible)
  if !o.shouldClipContent
      || (clipX && decide (layout.contentBoxWidth < Affine.epsF32))
      || (clipY && decide (layout.contentBoxHeight < Affine.epsF32)) then
    none
  else
    let fromP : Point :=
      ⟨if clipX then layout.padding.left + layout.border.left else f32Min,
        if clipY then layout.padding.top + layout.border.top else f32Min⟩
    let toP : Point :=
      ⟨if clipX then fromP.x + layout.contentBoxWidth else f32Max,
        if clipY then fromP.y + layout.contentBoxHeight else f32Max⟩
    match transform.invert with
    | some inv => some ⟨fromP, toP, inv, false⟩
    | none => none

/-- A canvas modification, abstracting the pixel writes of one drawing call:
`draw_on_canvas` of the node tagged `tag` (its backgrounds, borders and own
content), `draw_inline` of its inline tree, or the `draw_mask` blit of an
offscreen subtree canvas through a clip-path mask. -/
inductive PaintCmd where
  | draw (tag : ℕ)
  | drawInline (tag : ℕ)
  | drawMask (tag : ℕ) (inner : List PaintCmd)

/-- The canvas state: the modifications applied so far plus the active
constraint stack. -/
structure Canvas where
  width : ℕ
  height : ℕ
  cmds : List PaintCmd
  constraints : List CanvasConstrain

/-- Embeds `Canvas::push_constrain`. -/
def Canvas.pushConstrain (c : Canvas) (con : CanvasConstrain) : Canvas :=
  { c with constraints := con :: c.constraints }

/-- Embeds `Canvas::pop_constrain`. -/
def Canvas.popConstrain (c : Canvas) : Canvas :=
  { c with constraints := c.constraints.tail }

/-- A node of the positioned render tree reaching `render_node`: its paint
identity `tag`, the style and context slices the renderer consults, the
solver-assigned `LayoutRect`, whether the node holds an inline tree
(`should_create_inline_layout`), and the solver children. -/
inductive RNode where
  | mk (tag : ℕ) (style : PaintStyle) (opacity : ℚ) (ctx : RenderCtx)
      (layout : LayoutRect) (inlineLayout : Bool) (children : List RNode)

def RNode.tag : RNode → ℕ
  | .mk t _ _ _ _ _ _ => t

def RNode.style : RNode → PaintStyle
  | .mk _ s _ _ _ _ _ => s

def RNode.opacity : RNode → ℚ
  | .mk _ _ o _ _ _ _ => o

def RNode.ctx : RNode → RenderCtx
  | .mk _ _ _ c _ _ _ => c

def RNode.layout : RNode → LayoutRect
  | .mk _ _ _ _ l _ _ => l

def RNode.inlineLayout : RNode → Bool
  | .mk _ _ _ _ _ i _ => i

def RNode.children : RNode → List RNode
  | .mk _ _ _ _ _ _ c => c

mutual
/-- Embeds `render_node` (render.rs lines 133-220).  Drawing is embedded as
commands appended to the canvas (see `PaintCmd`); the clip-path branch draws
the subtree into a fresh offscreen canvas and blits it through the mask with
a single `draw_mask`, embedded as one `.drawMask` command carrying the
offscreen modifications. -/
def renderNode (n : RNode) (canvas : Canvas) (transform : Affine) : Canvas :=
  match n with
  | .mk tag style opacity ctx layout inlineL children =>
    if opacity = 0 ∨ style.display = Display.none then canvas
    else
      let t1 := Affine.translation n.layout.location.x n.layout.location.y * transform
      let t2 := createTransform t1 style layout.size ctx
      if !t2.isInvertible then canvas
      else if style.clipPath then
        let inner0 : Canvas := ⟨canvas.width, canvas.height, [], []⟩
        let inner1 : Canvas := { inner0 with cmds := inner0.cmds ++ [.draw tag] }
        let inner2 :=
          if inlineL then { inner1 with cmds := inner1.cmds ++ [.drawInline tag] }
          else renderChildren children inner1 t2
        { canvas with cmds := canvas.cmds ++ [.drawMask tag inner2.cmds] }
      else
        let canvas1 := { canvas with cmds := canvas.cmds ++ [.draw tag] }
        if style.overflow.shouldClipContent then
          match style.overflow.createConstrain layout t2 with
          | none => canvas1
          | some con =>
            let canvas2 := canvas1.pushConstrain con
            let canvas3 :=
              if inlineL then { canvas2 with cmds := canvas2.cmds ++ [.drawInline tag] }
              else renderChildren children canvas2 t2
            canvas3.popConstrain
        else
          if inlineL then { canvas1 with cmds := canvas1.cmds ++ [.drawInline tag] }
          else renderChildren children canvas1 t2

/-- The child loop of `render_node`: depth-first recursion in declared
order, threading the canvas. -/
def renderChildren (l : List RNode) (canvas : Canvas) (transform : Affine) : Canvas :=
  match l with
  | [] => canvas
  | child :: rest => renderChildren rest (renderNode child canvas transform) transform
end

/-- The error taxonomy of spec §7 (`crate::Error`). -/
inductive RenderError where
  | parseError
  | unknownResource
  | decodeError
  | invalidViewport
  | renderErr
  | ioError
  | encodeError
deriving DecidableEq, Repr

/-- Rust `f32::round` (ties away from zero) followed by `as u32` (which
saturates negative values to `0`), on the exact rational model. -/
def roundAsU32 (q : ℚ) : ℕ :=
  (if 0 ≤ q then ⌊q + 1 / 2⌋ else -⌊-q + 1 / 2⌋).toNat

/-- Embeds the tail of `render` (render.rs lines 71-93).  The external solver
produces the computed root layout size, taken here as the input
`computedSize`; `viewportDefinite` holds the viewport's definite axes (the
`zip_map` that sizes the canvas).  The painting never fails, so the only
error this stage can produce is `InvalidViewport`. -/
def render (computedSize : ℚ × ℚ) (viewportDefinite : Option ℕ × Option ℕ) (root : RNode) :
    Except RenderError Canvas :=
  let rootW := roundAsU32 computedSize.1
  let rootH := roundAsU32 computedSize.2
  if rootW = 0 ∨ rootH = 0 then .error .invalidViewport
  else
    let w := viewportDefinite.1.getD rootW
    let h := viewportDefinite.2.getD rootH
    .ok (renderNode root ⟨w, h, [], []⟩ Affine.identity)

/-- C3: for every node whose composed affine transform along the paint path
(layout translation composed with the node's declared transforms) is
non-invertible, painting of that node and its entire subtree is aborted, so
the subtree produces no modifications to the canvas. -/
theorem c3_noninvertible_transform_aborts_subtree (n : RNode) (canvas : Canvas)
    (transform : Affine)
    (h : ¬(createTransform
        (Affine.translation n.layout.location.x n.layout.location.y * transform)
        n.style n.layout.size n.ctx).isInvertible = true) :
    renderNode n canvas transform = canvas := by
  obtain ⟨tag, style, opacity, ctx, layout, inlineL, children⟩ := n
  rw [renderNode]
  simp only [RNode.layout, RNode.style, RNode.ctx] at h ⊢
  split
  · rfl
  · rw [if_pos (by simpa using h)]

/-- Witness for C3: a node declaring `transform: scale(0)` (hence a singular
composed transform) leaves a concrete canvas untouched. -/
theorem c3_noninvertible_transform_aborts_subtree_witness :
    renderNode
        (.mk 7
          ⟨.block, Option.none, some ⟨[.scale 0 0]⟩, Option.none, Option.none, Option.none,
            false, ⟨SpacePair.fromSingle .visible⟩⟩
          1 ctx0 ⟨⟨0, 0⟩, ⟨100, 100⟩, ⟨0, 0, 0, 0⟩, ⟨0, 0, 0, 0⟩⟩ false
          [.mk 8
            ⟨.block, Option.none, Option.none, Option.none, Option.none, Option.none,
              false, ⟨SpacePair.fromSingle .visible⟩⟩
            1 ctx0 ⟨⟨0, 0⟩, ⟨10, 10⟩, ⟨0, 0, 0, 0⟩, ⟨0, 0, 0, 0⟩⟩ false []])
        ⟨100, 100, [], []⟩ Affine.identity =
      ⟨100, 100, [], []⟩ := by
  apply c3_noninvertible_transform_aborts_subtree
  norm_num [createTransform, ctx0, TransformOrigin.toPoint, LengthUnit.resolveToPx,
    Affine.identity, Affine.translation, Affine.scale, Affine.decomposeTranslation,
    Option.getD, Affine.mul_def, Affine.mul, Point.add_def, Affine.isInvertible,
    Affine.determinant, Affine.epsF32, RNode.layout, RNode.style, RNode.ctx,
    Transforms.toAffine, Affine.rotation, Affine.skew, Inhabited.default]

/-- An axis with overflow other than `visible` forces `should_clip_content`. -/
theorem Overflows.shouldClipContent_of_ne_visible {o : Overflows}
    (h : o.x ≠ Overflow.visible ∨ o.y ≠ Overflow.visible) :
    o.shouldClipContent = true := by
  unfold Overflows.shouldClipContent
  simp only [decide_eq_true_eq]
  intro heq
  rcases h with h | h <;>
    simp [heq, Overflows.x, Overflows.y, SpacePair.fromSingle] at h

/-- A clipped axis whose content box is thinner than `f32::EPSILON` makes
`create_constrain` return `None`. -/
theorem Overflows.createConstrain_eq_none_of_degenerate {o : Overflows}
    (layout : LayoutRect) (transform : Affine)
    (h : (o.x ≠ Overflow.visible ∧ layout.contentBoxWidth < Affine.epsF32) ∨
      (o.y ≠ Overflow.visible ∧ layout.contentBoxHeight < Affine.epsF32)) :
    o.createConstrain layout transform = none := by
  unfold Overflows.createConstrain
  rcases h with ⟨h1, h2⟩ | ⟨h1, h2⟩ <;> simp [h1, h2]

/-- C10: for every painted node (no clip-path, positive opacity, displayed,
invertible composed transform) with overflow other than `visible` on some
axis whose content-box size on a clipped axis is below `f32::EPSILON`,
`create_constrain` returns `None` and the renderer returns immediately after
drawing the node's own background and borders: none of the node's children
are painted. -/
theorem c10_degenerate_overflow_clip_skips_children (n : RNode) (canvas : Canvas)
    (transform : Affine)
    (hop : ¬n.opacity = 0) (hdisp : ¬n.style.display = Display.none)
    (hinv : (createTransform
        (Affine.translation n.layout.location.x n.layout.location.y * transform)
        n.style n.layout.size n.ctx).isInvertible = true)
    (hclip : n.style.clipPath = false)
    (hdeg : (n.style.overflow.x ≠ Overflow.visible ∧
        n.layout.contentBoxWidth < Affine.epsF32) ∨
      (n.style.overflow.y ≠ Overflow.visible ∧
        n.layout.contentBoxHeight < Affine.epsF32)) :
    renderNode n canvas transform =
      { canvas with cmds := canvas.cmds ++ [.draw n.tag] } := by
  obtain ⟨tag, style, opacity, ctx, layout, inlineL, children⟩ := n
  simp only [RNode.style, RNode.opacity, RNode.ctx, RNode.layout, RNode.tag]
    at hop hdisp hinv hclip hdeg ⊢
  rw [renderNode]
  simp only [RNode.style, RNode.ctx, RNode.layout]
  rw [if_neg (fun hc => hc.elim hop hdisp)]
  rw [hinv]
  simp only [Bool.not_true, Bool.false_eq_true, if_false, hclip,
    Overflows.shouldClipContent_of_ne_visible (hdeg.imp And.left And.left),
    Overflows.createConstrain_eq_none_of_degenerate layout _ hdeg, if_true]

/-- A node with `overflow: hidden` and a zero-width content box, holding one
child. -/
def c10Node : RNode :=
  .mk 3
    ⟨.block, Option.none, Option.none, Option.none, Option.none, Option.none, false,
      ⟨SpacePair.fromSingle .hidden⟩⟩
    1 ctx0 ⟨⟨0, 0⟩, ⟨0, 50⟩, ⟨0, 0, 0, 0⟩, ⟨0, 0, 0, 0⟩⟩ false
    [.mk 4
      ⟨.block, Option.none, Option.none, Option.none, Option.none, Option.none, false,
        ⟨SpacePair.fromSingle .visible⟩⟩
      1 ctx0 ⟨⟨0, 0⟩, ⟨10, 10⟩, ⟨0, 0, 0, 0⟩, ⟨0, 0, 0, 0⟩⟩ false []]

/-- Witness for C10 at `c10Node`: only the node's own drawing lands on the
canvas; its child is skipped. -/
theorem c10_degenerate_overflow_clip_skips_children_witness :
    renderNode c10Node ⟨100, 100, [], []⟩ Affine.identity =
      ⟨100, 100, [.draw 3], []⟩ := by
  apply c10_degenerate_overflow_clip_skips_children c10Node ⟨100, 100, [], []⟩ Affine.identity
  · norm_num [c10Node, RNode.opacity]
  · simp [c10Node, RNode.style]
  · norm_num [c10Node, createTransform, ctx0, TransformOrigin.toPoint,
      LengthUnit.resolveToPx, Affine.identity, Affine.translation, Affine.scale,
      Affine.decomposeTranslation, Option.getD, Affine.mul_def, Affine.mul,
      Point.add_def, Affine.isInvertible, Affine.determinant, Affine.epsF32,
      RNode.layout, RNode.style, RNode.ctx, Inhabited.default]
  · simp [c10Node, RNode.style]
  · left
    constructor
    · simp [c10Node, RNode.style, Overflows.x, SpacePair.fromSingle]
    · norm_num [c10Node, RNode.layout, LayoutRect.contentBoxWidth, Affine.epsF32]

/-- C8: `render` returns the `InvalidViewport` error exactly when the
computed root layout size, rounded to integers, has width `0` or height `0`;
otherwise rendering proceeds and produces a canvas. -/
theorem c8_invalid_viewport_iff (computedSize : ℚ × ℚ)
    (viewportDefinite : Option ℕ × Option ℕ) (root : RNode) :
    (render computedSize viewportDefinite root = .error .invalidViewport ↔
      roundAsU32 computedSize.1 = 0 ∨ roundAsU32 computedSize.2 = 0) ∧
    (¬(roundAsU32 computedSize.1 = 0 ∨ roundAsU32 computedSize.2 = 0) →
      ∃ canvas, render computedSize viewportDefinite root = .ok canvas) := by
  by_cases hc : roundAsU32 computedSize.1 = 0 ∨ roundAsU32 computedSize.2 = 0 <;>
    simp [render, hc]

/-- Witness for C8: a root layout of `¼ × 100` px rounds to width `0` and is
rejected, while `100 × 100` renders. -/
theorem c8_invalid_viewport_iff_witness :
    render (1 / 4, 100) (Option.none, Option.none) c10Node = .error .invalidViewport ∧
      ∃ canvas, render (100, 100) (Option.none, Option.none) c10Node = .ok canvas := by
  have h0 : roundAsU32 (1 / 4) = 0 := by
    norm_num [roundAsU32]
  have h100 : roundAsU32 100 = 100 := by
    norm_num [roundAsU32]
    rfl
  refine ⟨?_, ?_⟩
  · exact (c8_invalid_viewport_iff (1 / 4, 100) (Option.none, Option.none) c10Node).1.mpr
      (Or.inl h0)
  · exact (c8_invalid_viewport_iff (100, 100) (Option.none, Option.none) c10Node).2
      (by simp [h100])

/-- Embeds `MaxHeight` (inline.rs / the rendering module): the combined
height/line-count cap of inline layout. -/
inductive MaxHeight where
  | lines (n : ℕ)
  | absolute (h : ℚ)
  | both (h : ℚ) (n : ℕ)
deriving DecidableEq, Repr

/-- The `MaxHeight::Absolute` loop of `break_lines` (inline.rs lines
224-243).  The parley breaker is embedded by the list of heights of the lines
it would produce at the given width: `break_next` pops the next height,
`revert` removes the last produced line.  While the accumulated height is
under the cap another line is broken; afterwards, if the total overshot the
cap, the last break is reverted. -/
def breakAbsWhile (maxHeight total : ℚ) (produced pending : List ℚ) : List ℚ :=
  if total < maxHeight then
    match pending with
    | [] => produced
    | h :: rest => breakAbsWhile maxHeight (total + h) (produced ++ [h]) rest
  else if maxHeight < total then produced.dropLast
  else produced
termination_by pending

/-- The `MaxHeight::Both` loop of `break_lines` (inline.rs lines 244-268):
as `breakAbsWhile` but also stopping once `max_lines` lines are broken. -/
def breakBothWhile (maxHeight : ℚ) (maxLines : ℕ) (total : ℚ) (lineCount : ℕ)
    (produced pending : List ℚ) : List ℚ :=
  if total < maxHeight then
    if maxLines ≤ lineCount then
      if maxHeight < total then produced.dropLast else produced
    else
      match pending with
      | [] => if maxHeight < total then produced.dropLast else produced
      | h :: rest =>
          breakBothWhile maxHeight maxLines (total + h) (lineCount + 1)
            (produced ++ [h]) rest
  else if maxHeight < total then produced.dropLast
  else produced
termination_by pending

/-- Embeds `break_lines` (inline.rs lines 202-270), returning the heights of
the lines kept in the layout: no constraint breaks everything, `Lines(n)`
calls `break_next` up to `n` times, `Absolute` and `Both` run the capped
loops. -/
def breakLines (maxHeight : Option MaxHeight) (pending : List ℚ) : List ℚ :=
  match maxHeight with
  | Option.none => pending
  | some (.lines n) => pending.take n
  | some (.absolute h) => breakAbsWhile h 0 [] pending
  | some (.both h n) => breakBothWhile h n 0 0 [] pending

/-- Invariant of the `Absolute` loop: if the produced lines sum to the
accumulator and the sum before the last produced line is under the cap, the
final sum is at most the cap. -/
theorem breakAbsWhile_sum_le (maxHeight : ℚ) (hm : 0 ≤ maxHeight) :
    ∀ pending total produced, produced.sum = total →
      (produced = [] ∨ produced.dropLast.sum < maxHeight) →
      (breakAbsWhile maxHeight total produced pending).sum ≤ maxHeight := by
  intro pending
  induction pending with
  | nil =>
    intro total produced hsum hinv
    rw [breakAbsWhile]
    split
    · exact hsum ▸ le_of_lt (by assumption)
    · split
      · rcases hinv with h0 | hlt
        · exfalso
          subst h0
          simp at hsum
          subst hsum
          exact absurd (by assumption : maxHeight < 0) (not_lt.mpr hm)
        · exact le_of_lt hlt
      · exact hsum ▸ le_of_not_lt (by assumption)
  | cons h rest ih =>
    intro total produced hsum hinv
    rw [breakAbsWhile]
    split
    · exact ih (total + h) (produced ++ [h])
        (by simp [hsum])
        (Or.inr (by simpa [List.dropLast_concat, hsum] using (by assumption : total < maxHeight)))
    · split
      · rcases hinv with h0 | hlt
        · exfalso
          subst h0
          simp at hsum
          subst hsum
          exact absurd (by assumption : maxHeight < 0) (not_lt.mpr hm)
        · exact le_of_lt hlt
      · exact hsum ▸ le_of_not_lt (by assumption)

/-- C4: for every inline layout broken under `MaxHeight::Absolute(h)` with
`h ≥ 0`, the sum of the heights of the lines produced by `break_lines` is at
most `h` (a break whose added line height would push the total over `h` is
reverted). -/
theorem c4_absolute_cap_bounds_total_height (h : ℚ) (pending : List ℚ) (hh : 0 ≤ h) :
    (breakLines (some (.absolute h)) pending).sum ≤ h :=
  breakAbsWhile_sum_le h hh pending 0 [] rfl (Or.inl rfl)

/-- Witness for C4 at cap `1` over candidate lines `[1, 1]`: one line is
kept and the height bound holds. -/
theorem c4_absolute_cap_bounds_total_height_witness :
    (0 : ℚ) ≤ 1 ∧ (breakLines (some (.absolute 1)) [1, 1]).sum ≤ 1 :=
  ⟨by norm_num, c4_absolute_cap_bounds_total_height 1 [1, 1] (by norm_num)⟩

/-- The slice of the `cssparser` token stream that
`PercentageNumber::from_css` inspects.  Per `cssparser`, a `Percentage`
token carries `unit_value`, the written percent already divided by `100`
(so `100%` arrives as `1`). -/
inductive CssToken where
  | number (value : ℚ)
  | percentage (unitValue : ℚ)
  | other
deriving DecidableEq, Repr

/-- Embeds `PercentageNumber` (percentage_number.rs). -/
structure PercentageNumber where
  val : ℚ
deriving DecidableEq, Repr

/-- Embeds `PercentageNumber::from_css` (percentage_number.rs lines 47-62):
a number or percentage token yields its value clamped from below at `0`
(`value.max(0.0)`); any other token is a parse error. -/
def PercentageNumber.fromCss : CssToken → Option PercentageNumber
  | .number value => some ⟨max value 0⟩
  | .percentage unitValue => some ⟨max unitValue 0⟩
  | .other => Option.none

/-- Embeds `PercentageNumber::parse_tw` (percentage_number.rs lines 39-45).
The token's `str.parse::<f32>()` call is external; it is embedded by its
result (`none` when the parse fails).  The handler divides by `100`. -/
def PercentageNumber.parseTw (parsed : Option ℚ) : Option PercentageNumber :=
  parsed.map fun value => ⟨value / 100⟩

/-- C6 counterexample: `from_css` on the number token `2` yields `2 ∉ [0,1]`,
and `parse_tw` on the token `-50` yields `-0.5 < 0`; the parsers do not
confine `PercentageNumber` to non-negative values in `[0,1]`. -/
theorem c6_counterexample :
    PercentageNumber.fromCss (.number 2) = some ⟨2⟩ ∧ ¬((2 : ℚ) ≤ 1) ∧
      PercentageNumber.parseTw (some (-50)) = some ⟨-(1 / 2)⟩ ∧ (-(1 / 2) : ℚ) < 0 := by
  refine ⟨?_, by norm_num, ?_, by norm_num⟩
  · simp [PercentageNumber.fromCss]
  · simp [PercentageNumber.parseTw]
    norm_num

/-- C6 (amended): every `PercentageNumber` produced by the CSS `from_css`
parser is non-negative (the value is clamped from below at `0`), with an
input of `100%` yielding `1.0`, but values above `1` pass through; the
Tailwind `parse_tw` parser yields the parsed number divided by `100` with no
clamping, so its results may be negative or exceed `1`. -/
theorem c6_percentage_number_ranges :
    (∀ t p, PercentageNumber.fromCss t = some p → 0 ≤ p.val) ∧
      PercentageNumber.fromCss (.percentage 1) = some ⟨1⟩ ∧
      (∀ v, PercentageNumber.parseTw (some v) = some ⟨v / 100⟩) := by
  refine ⟨?_, ?_, fun v => rfl⟩
  · intro t p hp
    cases t <;> simp [PercentageNumber.fromCss] at hp <;>
      simp [← hp, le_max_right]
  · simp [PercentageNumber.fromCss]

/-- Witness for C6 at the number token `5`. -/
theorem c6_percentage_number_ranges_witness :
    0 ≤ ((⟨5⟩ : PercentageNumber)).val :=
  c6_percentage_number_ranges.1 (.number 5) ⟨5⟩ (by simp [PercentageNumber.fromCss])

/-- An animation frame handed to the container encoders: pixel data is
embedded by its dimensions, plus the frame duration in milliseconds
(`AnimationFrame`, write.rs). -/
structure AnimFrame where
  width : ℕ
  height : ℕ
  durationMs : ℕ
deriving DecidableEq, Repr

/-- The header data `encode_animated_png` hands to the streaming PNG
encoder, plus the number of frame writes it performs. -/
structure ApngStream where
  headerWidth : ℕ
  headerHeight : ℕ
  frameCount : ℕ
  loopCount : ℕ
  delayNum : ℕ
  delayDen : ℕ
  framesWritten : ℕ
deriving DecidableEq, Repr

/-- Embeds `encode_animated_png` (write.rs lines 293-328): header sized from
the first frame, `set_animated(frames.len(), loop_count.unwrap_or(0))`, a
single frame delay of `min(durations).clamp(0, u16::MAX)` over the
`1/1000` s time base, then one `write_image_data` per frame.  The source
asserts the frame list non-empty; the empty case is embedded as `none`. -/
def encodeAnimatedPng (frames : List AnimFrame) (loopCount : Option ℕ) : Option ApngStream :=
  match frames with
  | [] => Option.none
  | f0 :: rest =>
    let minDurationMs := (rest.map AnimFrame.durationMs).foldl min f0.durationMs
    some
      { headerWidth := f0.width
        headerHeight := f0.height
        frameCount := (f0 :: rest).length
        loopCount := loopCount.getD 0
        delayNum := min minDurationMs 65535
        delayDen := 1000
        framesWritten := (f0 :: rest).length }

/-- The `List.minimum` of a non-empty list is the left fold of `min` over its
tail, seeded with its head (the shape Rust's `Iterator::min` computes). -/
theorem minimum_eq_foldl (l : List ℕ) : ∀ a : ℕ, (a :: l).minimum = some (l.foldl min a) := by
  induction l with
  | nil =>
    intro a
    simp [List.minimum_cons]
    rfl
  | cons b l ih =>
    intro a
    rw [List.minimum_cons]
    simp only [List.foldl_cons]
    rw [← ih (min a b), List.minimum_cons, List.minimum_cons, WithTop.coe_min]
    exact (min_assoc _ _ _).symm

/-- C7: for every non-empty frame list, `encode_animated_png` declares
exactly `frames.len()` frames and sets a single per-frame delay equal to the
minimum `duration_ms` over all frames, clamped to `u16::MAX`, with
denominator `1000` (the 1/1000-second time base). -/
theorem c7_apng_frame_count_and_min_delay (frames : List AnimFrame) (loopCount : Option ℕ)
    (hne : frames ≠ []) :
    ∃ s m, encodeAnimatedPng frames loopCount = some s ∧
      (frames.map AnimFrame.durationMs).minimum = some m ∧
      s.frameCount = frames.length ∧ s.delayNum = min m 65535 ∧ s.delayDen = 1000 ∧
      s.framesWritten = frames.length := by
  match frames with
  | [] => exact absurd rfl hne
  | f0 :: rest =>
    refine ⟨_, (rest.map AnimFrame.durationMs).foldl min f0.durationMs,
      rfl, ?_, rfl, rfl, rfl, rfl⟩
    rw [List.map_cons]
    exact minimum_eq_foldl _ _

/-- Witness for C7 on three 10×10 frames of durations 300, 100 and 200 ms:
three frames and a delay of `min = 100` over denominator 1000. -/
theorem c7_apng_frame_count_and_min_delay_witness :
    ∃ s m,
      encodeAnimatedPng [⟨10, 10, 300⟩, ⟨10, 10, 100⟩, ⟨10, 10, 200⟩] Option.none = some s ∧
      (([⟨10, 10, 300⟩, ⟨10, 10, 100⟩, ⟨10, 10, 200⟩] : List AnimFrame).map
        AnimFrame.durationMs).minimum = some m ∧
      s.frameCount = ([⟨10, 10, 300⟩, ⟨10, 10, 100⟩, ⟨10, 10, 200⟩] : List AnimFrame).length ∧
      s.delayNum = min m 65535 ∧ s.delayDen = 1000 ∧
      s.framesWritten = ([⟨10, 10, 300⟩, ⟨10, 10, 100⟩, ⟨10, 10, 200⟩] : List AnimFrame).length :=
  c7_apng_frame_count_and_min_delay [⟨10, 10, 300⟩, ⟨10, 10, 100⟩, ⟨10, 10, 200⟩]
    Option.none (by simp)

/-- Embeds `CssValue<T, DEFAULT_INHERIT>` (src/takumi/src/layout/style/mod.rs):
`Initial | Inherit | Value(T)` — explicitly set, inherited, or initial. -/
inductive CssVal (α : Type) where
  | initial
  | inherit
  | value (v : α)
deriving DecidableEq, Repr

/-- Embeds `CssValue::inherit_value` (src/takumi/src/layout/style/mod.rs
lines 101-113): `Value(v) → v`, `Inherit → parent.clone()`,
`Initial → T::default()`, with the `Default` instance's value passed
explicitly as `dflt`. -/
def CssVal.resolve {α : Type} (cv : CssVal α) (parent dflt : α) : α :=
  match cv with
  | .initial => dflt
  | .inherit => parent
  | .value v => v

/-- The resolved per-node style slice the layout-tree assembly consults:
the display plus representative visual properties (border width, background,
margin) that distinguish a styled node from the anonymous wrapper's
default-reset style, and the optionally-declared font size (already in px)
and color. -/
structure InheritedStyleM where
  display : Display
  border : ℚ
  background : Option ℕ
  margin : ℚ
  fontSize : Option ℚ
  color : Option ℕ
deriving DecidableEq, Repr

/-- Modelled from the spec: `InheritedStyle::default()`.  The wrapper the
assembly creates from it is the spec's anonymous *block* container with no
borders/backgrounds/margins. -/
instance : Inhabited InheritedStyleM :=
  ⟨⟨.block, 0, Option.none, 0, Option.none, Option.none⟩⟩

/-- A declared (input) style: each property a `CssVal`. -/
structure TreeStyle where
  display : CssVal Display
  border : CssVal ℚ
  background : CssVal (Option ℕ)
  margin : CssVal ℚ
  fontSize : CssVal (Option ℚ)
  color : CssVal (Option ℕ)
deriving DecidableEq, Repr

/-- Modelled from the spec: the field-by-field `Style::inherit` (its defining
stylesheets file is not in the source snapshot; spec §4.2) applies the
embedded `CssValue::inherit_value` (`CssVal.resolve`) to every property
against the parent's resolved style. -/
def TreeStyle.inherit (s : TreeStyle) (p : InheritedStyleM) : InheritedStyleM where
  display := s.display.resolve p.display (default : InheritedStyleM).display
  border := s.border.resolve p.border (default : InheritedStyleM).border
  background := s.background.resolve p.background (default : InheritedStyleM).background
  margin := s.margin.resolve p.margin (default : InheritedStyleM).margin
  fontSize := s.fontSize.resolve p.fontSize (default : InheritedStyleM).fontSize
  color := s.color.resolve p.color (default : InheritedStyleM).color

/-- The slice of `RenderContext` the layout-tree assembly threads: resolved
style, font size and `currentColor`. -/
structure TreeCtx where
  style : InheritedStyleM
  fontSize : ℚ
  currentColor : ℕ
deriving DecidableEq, Repr

/-- An input node for the layout-tree assembly (`Node`): paint identity,
declared style, and `None` children for leaves (`take_children`). -/
inductive InNode where
  | mk (tag : ℕ) (style : TreeStyle) (children : Option (List InNode))

/-- Embeds `NodeTreeItem`: per-node context, the original node (by its tag,
`None` for the anonymous wrappers), and converted children. -/
inductive TreeItem where
  | mk (context : TreeCtx) (node : Option ℕ) (children : Option (List TreeItem))

def TreeItem.contextOf : TreeItem → TreeCtx
  | .mk c _ _ => c

def TreeItem.nodeTag : TreeItem → Option ℕ
  | .mk _ n _ => n

def TreeItem.childItems : TreeItem → Option (List TreeItem)
  | .mk _ _ c => c

/-- Embeds `NodeTreeItem::is_inline` (tree.rs lines 47-49). -/
def TreeItem.isInline (i : TreeItem) : Bool :=
  decide (i.contextOf.style.display = Display.inline)

/-- The anonymous wrapper the assembly creates around an inline run (tree.rs
lines 101-108): the surrounding context with the style reset to
`InheritedStyle::default()`, no original node, the run as children. -/
def anonWrapper (ctx : TreeCtx) (group : List TreeItem) : TreeItem :=
  .mk { ctx with style := (default : InheritedStyleM) } Option.none (some group)

/-- Embeds the segmentation loop of `from_node` (tree.rs lines 95-116):
walk the converted children keeping an accumulator of consecutive inline
items; a non-inline item first flushes a non-empty accumulator as one
anonymous wrapper, then is emitted itself.  As in the source, an inline run
still in the accumulator when the loop ends is dropped. -/
def segmentChildren (wrapCtx : TreeCtx) (inlineGroup : List TreeItem) :
    List TreeItem → List TreeItem
  | [] => []
  | item :: rest =>
    if !item.isInline then
      (if inlineGroup.isEmpty then [] else [anonWrapper wrapCtx inlineGroup]) ++
        item :: segmentChildren wrapCtx [] rest
    else
      segmentChildren wrapCtx (inlineGroup ++ [item]) rest

mutual
/-- Embeds `NodeTreeItem::from_node` (tree.rs lines 51-123): resolve the
style against the parent context (the cascade), resolve font size and
`currentColor`, convert the children under the new context; leaves keep no
children; a node that is not inline-displayed, or whose converted children
are all inline, keeps them as is; otherwise its display is converted to its
block counterpart and the children are segmented into runs. -/
def fromNode (parentCtx : TreeCtx) (n : InNode) : TreeItem :=
  match n with
  | .mk tag style children =>
    let resolved := style.inherit parentCtx.style
    let fontSize := resolved.fontSize.getD parentCtx.fontSize
    let currentColor := resolved.color.getD parentCtx.currentColor
    let context : TreeCtx := ⟨resolved, fontSize, currentColor⟩
    match children with
    | Option.none => .mk context (some tag) Option.none
    | some cs =>
      let converted := fromNodeList context cs
      if !context.style.display.isInline || converted.all TreeItem.isInline then
        .mk context (some tag) (some converted)
      else
        let context2 : TreeCtx :=
          { context with style := { context.style with display := context.style.display.toBlock } }
        .mk context2 (some tag) (some (segmentChildren context2 [] converted))

/-- The child conversion loop of `from_node`. -/
def fromNodeList (ctx : TreeCtx) (l : List InNode) : List TreeItem :=
  match l with
  | [] => []
  | x :: xs => fromNode ctx x :: fromNodeList ctx xs
end

/-- A declared style with the given display and non-default border,
background and margin. -/
def styleOf (d : Display) : TreeStyle :=
  ⟨.value d, .value 1, .value (some 5), .value 2, .value Option.none, .value Option.none⟩

/-- The root assembly context: default style, font size 16, black. -/
def rootTreeCtx : TreeCtx := ⟨default, 16, 0⟩

/-- A block node with mixed children: one inline, one block. -/
def c2BlockParent : InNode :=
  .mk 0 (styleOf .block)
    (some [.mk 1 (styleOf .inline) Option.none, .mk 2 (styleOf .block) Option.none])

/-- An inline node whose children are a block followed by a trailing inline
sibling. -/
def c2InlineParent : InNode :=
  .mk 0 (styleOf .inline)
    (some [.mk 1 (styleOf .block) Option.none, .mk 2 (styleOf .inline) Option.none])

/-- C2 counterexample: the block parent with mixed inline/non-inline children
keeps both children in place — each still carries its original node, so no
anonymous wrapper was created around the inline run — while the inline
parent with a trailing inline run comes back with a single child: the
trailing inline child is dropped rather than wrapped. -/
theorem c2_counterexample :
    Option.map (List.map TreeItem.nodeTag) (fromNode rootTreeCtx c2BlockParent).childItems =
        some [some 1, some 2] ∧
      Option.map (List.map TreeItem.isInline) (fromNode rootTreeCtx c2BlockParent).childItems =
        some [true, false] ∧
      Option.map List.length (fromNode rootTreeCtx c2InlineParent).childItems = some 1 := by
  refine ⟨?_, ?_, ?_⟩ <;>
    simp [c2BlockParent, c2InlineParent, fromNode, fromNodeList, segmentChildren,
      rootTreeCtx, styleOf, TreeStyle.inherit, CssVal.resolve, TreeItem.isInline,
      TreeItem.childItems, TreeItem.nodeTag, TreeItem.contextOf, Display.isInline,
      Display.toBlock, anonWrapper, Inhabited.default]

/-- Every item the segmentation loop emits is either a non-inline input item,
or an anonymous wrapper — no original node, the surrounding context with the
style reset to the defaults — around a non-empty run of inline items drawn
from the accumulator or the input. -/
theorem segmentChildren_shape (ctx : TreeCtx) (S : List TreeItem) :
    ∀ (items group : List TreeItem),
      (∀ i ∈ group, i.isInline = true ∧ i ∈ S) → (∀ i ∈ items, i ∈ S) →
      ∀ j ∈ segmentChildren ctx group items,
        (j ∈ items ∧ j.isInline = false) ∨
        (j.nodeTag = Option.none ∧
          j.contextOf = { ctx with style := (default : InheritedStyleM) } ∧
          ∃ run, j.childItems = some run ∧ run ≠ [] ∧
            ∀ k ∈ run, k.isInline = true ∧ k ∈ S) := by
  intro items
  induction items with
  | nil =>
    intro group hg hi j hj
    simp [segmentChildren] at hj
  | cons item rest ih =>
    intro group hg hi j hj
    rw [segmentChildren] at hj
    by_cases hitem : item.isInline = true
    · simp only [hitem, Bool.not_true, Bool.false_eq_true, if_false] at hj
      have := ih (group ++ [item])
        (fun i hmem => by
          rcases List.mem_append.mp hmem with h | h
          · exact hg i h
          · simp only [List.mem_singleton] at h
            subst h
            exact ⟨hitem, hi i (List.mem_cons_self _ _)⟩)
        (fun i h => hi i (List.mem_cons_of_mem _ h)) j hj
      rcases this with ⟨hmem, hni⟩ | hw
      · exact Or.inl ⟨List.mem_cons_of_mem _ hmem, hni⟩
      · exact Or.inr hw
    · replace hitem : item.isInline = false := by
        cases h : item.isInline
        · rfl
        · exact absurd h hitem
      simp only [hitem, Bool.not_false, if_true] at hj
      rcases List.mem_append.mp hj with hj1 | hj2
      · by_cases hge : group.isEmpty
        · simp [hge] at hj1
        · simp only [hge, Bool.false_eq_true, if_false, List.mem_singleton] at hj1
          subst hj1
          refine Or.inr ⟨rfl, rfl, group, rfl, ?_, fun k hk => hg k hk⟩
          intro h
          exact hge (by simp [h])
      · rcases List.mem_cons.mp hj2 with rfl | hj3
        · exact Or.inl ⟨List.mem_cons_self _ _, hitem⟩
        · have := ih [] (by simp) (fun i h => hi i (List.mem_cons_of_mem _ h)) j hj3
          rcases this with ⟨hmem, hni⟩ | hw
          · exact Or.inl ⟨List.mem_cons_of_mem _ hmem, hni⟩
          · exact Or.inr hw

/-- C2 (amended): the layout-tree builder wraps inline runs only for a node
whose resolved display is inline and whose converted children are not all
inline; such a node's display is converted to its block counterpart and every
child it ends with is either one of its non-inline converted children or an
anonymous wrapper — carrying the node's context with its own style reset to
defaults (no borders/backgrounds/margins) and no original node — around a
non-empty run of inline converted children.  A node that is not
inline-displayed (in particular a block with mixed children), or whose
children are all inline, keeps its converted children unwrapped.  (A trailing
inline run is dropped by the loop; see the counterexample.) -/
theorem c2_inline_run_wrapping (parentCtx : TreeCtx) (tag : ℕ) (style : TreeStyle)
    (cs : List InNode) :
    let resolved := style.inherit parentCtx.style
    let context : TreeCtx :=
      ⟨resolved, resolved.fontSize.getD parentCtx.fontSize,
        resolved.color.getD parentCtx.currentColor⟩
    let converted := fromNodeList context cs
    ((!context.style.display.isInline || converted.all TreeItem.isInline) = true →
      fromNode parentCtx (.mk tag style (some cs)) = .mk context (some tag) (some converted)) ∧
    ((!context.style.display.isInline || converted.all TreeItem.isInline) = false →
      let context2 : TreeCtx :=
        { context with
          style := { context.style with display := context.style.display.toBlock } }
      fromNode parentCtx (.mk tag style (some cs)) =
        .mk context2 (some tag) (some (segmentChildren context2 [] converted)) ∧
      ∀ j ∈ segmentChildren context2 [] converted,
        (j ∈ converted ∧ j.isInline = false) ∨
        (j.nodeTag = Option.none ∧
          j.contextOf = { context2 with style := (default : InheritedStyleM) } ∧
          ∃ run, j.childItems = some run ∧ run ≠ [] ∧
            ∀ k ∈ run, k.isInline = true ∧ k ∈ converted)) := by
  refine ⟨fun hcond => ?_, fun hcond => ⟨?_, ?_⟩⟩
  · rw [fromNode]
    simp only [hcond, if_true]
  · rw [fromNode]
    simp only [hcond, Bool.false_eq_true, if_false]
  · exact segmentChildren_shape _ _ _ [] (by simp) (fun i h => h)

/-- Witness for C2: a block parent with one inline child is returned with its
children untouched (the no-wrap branch). -/
theorem c2_inline_run_wrapping_witness :
    (let resolved := (styleOf .block).inherit rootTreeCtx.style
     let context : TreeCtx :=
       ⟨resolved, resolved.fontSize.getD rootTreeCtx.fontSize,
         resolved.color.getD rootTreeCtx.currentColor⟩
     let converted := fromNodeList context [.mk 1 (styleOf .inline) Option.none]
     fromNode rootTreeCtx (.mk 0 (styleOf .block) (some [.mk 1 (styleOf .inline) Option.none])) =
       .mk context (some 0) (some converted)) :=
  (c2_inline_run_wrapping rootTreeCtx 0 (styleOf .block)
      [.mk 1 (styleOf .inline) Option.none]).1
    (by simp [styleOf, TreeStyle.inherit, CssVal.resolve, Display.isInline])

end Takumi
